import Mathlib

/-!
Verification of the rusp interpreter core (a small Lisp/Scheme evaluator in
Rust) against its natural-language specification.

The development shallowly embeds the relevant source files:

* `src/env.rs`    — the lexical environment chain (`define`, `update`,
  `lookup`, `derive`).  In Rust every `Env` holds its bindings behind a
  shared `Rc<RefCell<HashMap>>`, so aliased handles observe each other's
  mutations.  We model this with an explicit heap (`Heap`): an environment
  is an index into the heap, and `define`/`update` return the updated heap.
* `src/list.rs`   — the cons-list structure and `List::span`.
* `src/eval.rs`   — the evaluator (`eval`, `eval_internal`, `eval_s_expr`),
  including the tail-call trampoline and the error-span back-fill.
* `src/builtin/primitive.rs` and `src/built_in.rs` — the `cond` and `set`
  primitives and the old-revision quasiquote/unquote.

Modules `expr.rs`, `proc.rs`, `span.rs`, `builtin/quote.rs` and the prelude
are not present in the source tree; where a definition depends on them the
doc comment starts with "Modelled from the spec:" and names the missing
part.  Numeric payloads (`f64` in the source) are modelled as `Int`: every
claim under verification only manipulates small integers, on which IEEE
double arithmetic is exact.
-/

namespace Rusp

/-- Source location, from the (missing) `span.rs`, as used by `list.rs` and
its tests: `Loc::new(line, column)`. -/
structure Loc where
  line : Nat
  column : Nat

deriving DecidableEq

/-- Source span, from the (missing) `span.rs`: `Span::new(begin, end)` with
fields `begin` and `end` (named `end_` here because `end` is reserved). -/
structure Span where
  begin : Loc
  end_ : Loc

deriving DecidableEq

/-- Evaluation context of `eval.rs` (`EvalContext`): it carries the current
environment handle.  The shared `call_depth` cell lives in the evaluator
state `St` below, because in Rust it is one `Rc<Cell<usize>>` shared by
every derived context. -/
structure EvalContext where
  env : Nat

deriving DecidableEq

mutual
/-- Expression model of the (missing) `expr.rs`, as pattern-matched by
`eval.rs` and `list.rs`: `Sym`, `Num`, `Str`, `List` and `Proc` each carry
an optional source span; `TailCall` carries a procedure, the unevaluated
argument list and the captured context.  Procedures are identified by an
opaque handle (`Nat`); their `invoke` behaviour (the missing `proc.rs`) is
a parameter of the evaluator below. -/
inductive Expr where
  | Sym (name : String) (span : Option Span)
  | Num (value : Int) (span : Option Span)
  | Str (text : String) (span : Option Span)
  | List (list : SList) (span : Option Span)
  | Proc (proc : Nat) (span : Option Span)
  | TailCall (proc : Nat) (args : SList) (context : EvalContext)

/-- Cons-list structure of `list.rs` (`List` in the source; renamed `SList`
so that Lean's own `List` stays accessible): `Cons{car, cdr}` or `Nil`. -/
inductive SList where
  | Cons (car : Expr) (cdr : SList)
  | Nil
end

deriving instance DecidableEq for Expr

deriving instance DecidableEq for SList

/-- Span accessor of the (missing) `expr.rs`: every variant except
`TailCall` carries an optional span and returns it. -/
def Expr.span : Expr → Option Span
  | .Sym _ s => s
  | .Num _ s => s
  | .Str _ s => s
  | .List _ s => s
  | .Proc _ s => s
  | .TailCall _ _ _ => none

/-- The empty list, `NIL` of the (missing) `expr.rs`: `Expr::List(List::Nil)`
with no span. -/
def NIL : Expr := Expr.List SList.Nil none

/-- Whether an expression is rooted at the `TailCall` variant. -/
def Expr.isTailCall : Expr → Bool
  | .TailCall _ _ _ => true
  | _ => false

/-- Last element of a cons list (`iter().last()` in `List::span`). -/
def SList.lastElem : SList → Option Expr
  | .Nil => none
  | .Cons car .Nil => some car
  | .Cons _ (SList.Cons car cdr) => SList.lastElem (SList.Cons car cdr)

/-- Span of a list, from `list.rs` `List::span` (lines 63-76): the first
element is taken with `iter.next()` and the last remaining element with
`iter.last()`; with two or more elements the result combines the first
element's `begin` and the last element's `end` when both carry spans,
otherwise `None`; a singleton yields its sole element's span; the empty
list yields `None`.  Elements strictly between the first and the last are
never consulted. -/
def SList.span : SList → Option Span
  | .Nil => none
  | .Cons car cdr =>
    match SList.lastElem cdr with
    | none => car.span
    | some last =>
      match car.span, last.span with
      | some firstSpan, some lastSpan => some ⟨firstSpan.begin, lastSpan.end_⟩
      | _, _ => none

/-- One environment record of `env.rs`: the optional parent scope (`base`)
and the binding map (`vars`, a `HashMap<String, Expr>` in the source,
modelled as an association list whose keys are unique by construction). -/
structure EnvData where
  base : Option Nat
  vars : List (String × Expr)

deriving DecidableEq

/-- The heap of environment records.  In Rust each `Env`'s bindings sit in
a shared `Rc<RefCell<HashMap>>`; an environment handle is an index into
this heap, and mutation through any alias is mutation of the heap entry. -/
abbrev Heap := List EnvData

/-- Insertion into the binding map (`HashMap::insert`): overwrite the value
of an existing key, otherwise add the binding. -/
def insertVar : List (String × Expr) → String → Expr → List (String × Expr)
  | [], name, v => [(name, v)]
  | (m, w) :: rest, name, v =>
    if m = name then (name, v) :: rest else (m, w) :: insertVar rest name v

/-- Read of the binding map (`HashMap::get`). -/
def getVar : List (String × Expr) → String → Option Expr
  | [], _ => none
  | (m, w) :: rest, name => if m = name then some w else getVar rest name

/-- Key-membership test of the binding map (`HashMap::get_mut(..).is_some()`). -/
def containsVar (vars : List (String × Expr)) (name : String) : Bool :=
  match vars with
  | [] => false
  | (m, _) :: rest => if m = name then true else containsVar rest name

/-- Binding definition, from `env.rs` `Env::define` (lines 68-73): insert or
overwrite in this scope only, never walking to the parent. -/
def Env.define (h : Heap) (e : Nat) (name : String) (v : Expr) : Heap :=
  match h.get? e with
  | some d => h.set e { d with vars := insertVar d.vars name v }
  | none => h

/-- Fuelled walk of `env.rs` `Env::update` (lines 75-91): mutate the first
scope of the chain that binds the name and return `true`; reaching a scope
with no parent without a hit returns `false` and leaves the heap unchanged. -/
def updateGo : Nat → Heap → Nat → String → Expr → Bool × Heap
  | 0, h, _, _, _ => (false, h)
  | fuel + 1, h, e, name, v =>
    match h.get? e with
    | none => (false, h)
    | some d =>
      if containsVar d.vars name then
        (true, h.set e { d with vars := insertVar d.vars name v })
      else
        match d.base with
        | some b => updateGo fuel h b name v
        | none => (false, h)

/-- Binding update, `env.rs` `Env::update`.  The fuel `h.length + 1` always
suffices: the parent chain built by `derive` is strictly decreasing in
heap index, so it can visit each record at most once. -/
def Env.update (h : Heap) (e : Nat) (name : String) (v : Expr) : Bool × Heap :=
  updateGo (h.length + 1) h e name v

/-- Fuelled walk of `env.rs` `Env::lookup` (lines 93-106): read-only walk
from this scope outward through parents. -/
def lookupGo : Nat → Heap → Nat → String → Option Expr
  | 0, _, _, _ => none
  | fuel + 1, h, e, name =>
    match h.get? e with
    | none => none
    | some d =>
      match getVar d.vars name with
      | some v => some v
      | none =>
        match d.base with
        | some b => lookupGo fuel h b name
        | none => none

/-- Binding lookup, `env.rs` `Env::lookup`. -/
def Env.lookup (h : Heap) (e : Nat) (name : String) : Option Expr :=
  lookupGo (h.length + 1) h e name

/-- Scope derivation, from `env.rs` `Env::derive` (lines 108-112): a fresh
child scope whose `base` is this scope; the fresh record is appended to the
heap and its index returned. -/
def Env.derive (h : Heap) (e : Nat) : Heap × Nat :=
  (h ++ [{ base := some e, vars := [] }], h.length)

/-- Well-formedness of a heap: every record's parent index is strictly
below its own index.  `Env::derive` only ever creates records satisfying
this, because the parent exists before the child is appended. -/
def wfHeap (h : Heap) : Bool :=
  (List.range h.length).all fun i =>
    match h.get? i with
    | some d =>
      match d.base with
      | some b => decide (b < i)
      | none => true
    | none => true

/-- Evaluation error of `eval.rs` (`EvalError`): a message and an optional
source span; `From<String>` produces one with no span. -/
structure EvalError where
  message : String
  span : Option Span

deriving DecidableEq

/-- Result of evaluating one expression together with the possibly mutated
heap (`EvalResult` in `eval.rs`, with the interior mutability of the
environments made explicit). -/
abbrev HeapResult := Except EvalError (Expr × Heap)

/-- Exact-two-argument extraction, from `builtin/utils.rs`
`get_exact_2_args`: two iterator elements and then exhaustion, otherwise
an arity error. -/
def getExact2Args (procName : String) (args : SList) :
    Except EvalError (Expr × Expr) :=
  match args with
  | .Cons a1 (SList.Cons a2 SList.Nil) => .ok (a1, a2)
  | .Cons _ (SList.Cons _ (SList.Cons _ _)) =>
    .error ⟨procName ++ ": takes only two arguments", none⟩
  | _ => .error ⟨procName ++ ": requres two arguments", none⟩

/-- The `set` native procedure (the `set!` builtin), from
`builtin/primitive.rs` lines 178-188: extract exactly two arguments, demand
the first be a symbol, evaluate the second, call `Env::update` and discard
its boolean result, and return `Ok(NIL)`.  The recursive evaluation of the
value expression is a parameter `ev` (it is the evaluator's entry point). -/
def set (ev : Expr → Heap → HeapResult) (procName : String) (args : SList)
    (e : Nat) (h : Heap) : HeapResult :=
  match getExact2Args procName args with
  | .error err => .error err
  | .ok (nameExpr, valueExpr) =>
    match nameExpr with
    | .Sym name _ =>
      match ev valueExpr h with
      | .error err => .error err
      | .ok (v, h') => .ok (NIL, (Env.update h' e name v).2)
    | _ => .error ⟨"", none⟩

/-- Conversion from a Lean list of expressions to a cons list. -/
def SList.ofList : List Expr → SList
  | [] => SList.Nil
  | e :: rest => SList.Cons e (SList.ofList rest)

/-- Erroring branch constructor shared by the primitives
(`make_syntax_error` in `builtin/utils.rs`): an ill-formed-syntax message
with no span.  The `Display` rendering of the offending form into the
message text is not modelled; the argument list is kept to mirror the
source signature. -/
def makeIllFormedError (procName : String) (_args : SList) : EvalError :=
  ⟨"Ill-formed syntax: " ++ procName, none⟩

/-- Truthiness. Modelled from the spec: `is_truthy()` lives in the missing
`expr.rs`; per section 4.1 it reports false only for the empty list, and
the old-revision `cond` uses the equivalent test `eval(car, env)? != NIL`. -/
def Expr.is_truthy : Expr → Bool
  | .List SList.Nil _ => false
  | _ => true

/-- Second element access of `list.rs` `Cons::cdar`, as used by `cond` for
the clause body: the car of the cdr, if any. -/
def SList.car? : SList → Option Expr
  | .Cons car _ => some car
  | .Nil => none

/-- Loop body of the `cond` primitive, from `builtin/primitive.rs` lines
50-72 (the old-revision `src/built_in.rs` lines 40-62 is the same
algorithm with `!= NIL` in place of `is_truthy`): try clauses in order;
clause list exhausted yields `Ok(NIL)`; a non-list clause breaks to the
syntax error; a truthy condition returns the evaluation of the clause's
second element, or breaks to the syntax error when there is none.
`fullArgs` is the original argument list used in the error message, and
`ev` is the recursive evaluation entry point. -/
def condGo (ev : Expr → Heap → HeapResult) (procName : String)
    (fullArgs : SList) : SList → Heap → HeapResult
  | .Nil, h => .ok (NIL, h)
  | .Cons clause rest, h =>
    match clause with
    | .List (SList.Cons car cdr) _ =>
      match ev car h with
      | .error err => .error err
      | .ok (v, h') =>
        if v.is_truthy then
          match SList.car? cdr with
          | some expr => ev expr h'
          | none => .error (makeIllFormedError procName fullArgs)
        else condGo ev procName fullArgs rest h'
    | _ => .error (makeIllFormedError procName fullArgs)

/-- The `cond` primitive, `builtin/primitive.rs` lines 50-72. -/
def cond (ev : Expr → Heap → HeapResult) (procName : String) (args : SList)
    (h : Heap) : HeapResult :=
  condGo ev procName args args h

/-- A two-element clause `(c e)` as an expression. -/
def toClause (p : Expr × Expr) : Expr :=
  Expr.List (SList.Cons p.1 (SList.Cons p.2 SList.Nil)) none

/-- Prepend a Lean list of expressions onto a cons list. -/
def appendS : List Expr → SList → SList
  | [], s => s
  | e :: rest, s => SList.Cons e (appendS rest s)

/-- Evaluator state: the environment heap together with the call-depth
counter (`EvalContext::call_depth`, a single `Rc<Cell<usize>>` shared by
every derived context, so modelled as global evaluator state). -/
structure St where
  heap : Heap
  callDepth : Nat

deriving DecidableEq

/-- Result of one evaluation step together with the threaded state. -/
abbrev EvalRes := Except EvalError (Expr × St)

/-- Invocation behaviour of procedures (`Proc::invoke` of the missing
`proc.rs`): given the procedure handle, the unevaluated argument list, the
calling context and the state, produce a result.  The evaluator of
`eval.rs` treats `invoke` as a black box, so it is a parameter here. -/
abbrev InvokeFn := Nat → SList → EvalContext → St → EvalRes

/-- Behaviour of the quasiquote subsystem (`builtin::quote::quasiquote` of
the missing `builtin/quote.rs`), a parameter for the same reason. -/
abbrev QuasiquoteFn := SList → EvalContext → St → EvalRes

/-- Call-depth test of `eval.rs` `EvalContext::is_in_proc` (lines 98-100):
whether the shared call-depth counter is greater than zero. -/
def St.is_in_proc (s : St) : Bool :=
  decide (s.callDepth > 0)

/-- Quote. Modelled from the spec: `builtin/quote.rs` is missing; per
sections 4.5 and 8, `(quote x)` returns its first operand unevaluated, and
a missing operand is an ill-formed-syntax error. -/
def quote (procName : String) (args : SList) (_context : EvalContext)
    (s : St) : EvalRes :=
  match args with
  | .Cons car _ => .ok (car, s)
  | .Nil => .error (makeIllFormedError procName args)

/-- Trampoline loop of `eval.rs` `eval_s_expr` (lines 162-171): while the
result is a `TailCall`, re-invoke `proc.invoke(args, context)` and replace
the result; a non-`TailCall` result is returned as is.  The loop is
unbounded in the source, so it takes fuel; exhaustion is an error, which
keeps every `Ok` result an actually-computed value. -/
def trampoline (I : InvokeFn) : Nat → Expr → St → EvalRes
  | fuel, .TailCall p args context, s =>
    (match fuel with
     | 0 => .error ⟨"evaluation fuel exhausted", none⟩
     | f + 1 =>
       match I p args context s with
       | .error err => .error err
       | .ok (r, s') => trampoline I f r s')
  | _, v, s => .ok (v, s)

/-- Core dispatch of `eval.rs` `eval_internal` (lines 111-149): a symbol is
looked up in the context's environment (an unbound symbol is an error
carrying the symbol's span); a non-empty list whose head symbol is
literally `quote` or `quasiquote` short-circuits to the quote subsystem
with the unevaluated operands, and any other non-empty list is an
application (`eval_s_expr`, inlined here so that the recursion is
structural on the fuel; the stand-alone `evalSExpr` below is definitionally
equal to this branch); when the list dispatch produces an error with no
span, the error is re-raised with the same message and the span of the
argument list if available, otherwise the span of the whole expression;
every other expression is returned as is.  Fuel only bounds recursion
depth; exhaustion is an error. -/
def evalInternal (I : InvokeFn) (Q : QuasiquoteFn) :
    Nat → Bool → Expr → EvalContext → St → EvalRes
  | 0, _, _, _, _ => .error ⟨"evaluation fuel exhausted", none⟩
  | fuel + 1, isTail, expr, context, s =>
    match expr with
    | .Sym name sp =>
      (match Env.lookup s.heap context.env name with
       | some v => .ok (v, s)
       | none => .error ⟨"Undefined symbol: `" ++ name ++ "`", sp⟩)
    | .List (SList.Cons car cdr) sp =>
      (match
        (match car with
         | .Sym "quote" _ => quote "quote" cdr context s
         | .Sym "quasiquote" _ => Q cdr context s
         | _ =>
           match evalInternal I Q fuel false car context s with
           | .error err => .error err
           | .ok (.Proc p _, s') =>
             if isTail && s'.is_in_proc then
               .ok (.TailCall p cdr context, s')
             else
               (match I p cdr context s' with
                | .error err => .error err
                | .ok (r, s'') => trampoline I fuel r s'')
           | .ok (_, _) =>
             .error ⟨"does not evaluate to a callable.", car.span⟩) with
       | .error ⟨message, none⟩ =>
         .error ⟨message, (SList.span cdr).orElse fun _ => sp⟩
       | r => r)
    | _ => .ok (expr, s)

/-- Application, from `eval.rs` `eval_s_expr` (lines 151-179): evaluate the
head in non-tail position; if it is not a procedure, fail with a
not-callable error at the head's span (the `Display` rendering of the head
into the message is not modelled); if the call site is in tail position
and the evaluator is inside some procedure body, return the inert
`TailCall` marker without invoking; otherwise invoke once and drain the
resulting `TailCall` chain through the trampoline loop.  `fuel` is the
budget left for the sub-evaluations. -/
def evalSExpr (I : InvokeFn) (Q : QuasiquoteFn) (fuel : Nat) (isTail : Bool)
    (car : Expr) (args : SList) (context : EvalContext) (s : St) : EvalRes :=
  match evalInternal I Q fuel false car context s with
  | .error err => .error err
  | .ok (.Proc p _, s') =>
    if isTail && s'.is_in_proc then
      .ok (.TailCall p args context, s')
    else
      (match I p args context s' with
       | .error err => .error err
       | .ok (r, s'') => trampoline I fuel r s'')
  | .ok (_, _) =>
    .error ⟨"does not evaluate to a callable.", car.span⟩

/-- Head-of-list dispatch of `eval.rs` `eval_internal` (lines 123-127),
factored out for stating the error back-fill property: a head symbol
literally `quote` or `quasiquote` short-circuits to the quote subsystem,
any other head goes to `eval_s_expr`. -/
def evalListDispatch (I : InvokeFn) (Q : QuasiquoteFn) (fuel : Nat)
    (isTail : Bool) (car : Expr) (cdr : SList) (context : EvalContext)
    (s : St) : EvalRes :=
  match car with
  | .Sym "quote" _ => quote "quote" cdr context s
  | .Sym "quasiquote" _ => Q cdr context s
  | _ => evalSExpr I Q fuel isTail car cdr context s

/-- Top-level evaluation entry point, `eval.rs` `eval` (lines 103-105):
`eval_internal` with `is_tail = false`. -/
def eval (I : InvokeFn) (Q : QuasiquoteFn) (fuel : Nat) (expr : Expr)
    (context : EvalContext) (s : St) : EvalRes :=
  evalInternal I Q fuel false expr context s

/-- Tail-position evaluation entry point, `eval.rs` `eval_tail` (lines
107-109): `eval_internal` with `is_tail = true`. -/
def eval_tail (I : InvokeFn) (Q : QuasiquoteFn) (fuel : Nat) (expr : Expr)
    (context : EvalContext) (s : St) : EvalRes :=
  evalInternal I Q fuel true expr context s

/-- Counted re-invocation chain: the sequence of values obtained by
re-invoking the procedure of a `TailCall` result, stopping at the first
non-`TailCall` value.  This is the mathematical description of what the
trampoline loop computes, stated independently so that the loop can be
proved to return the first non-`TailCall` value of the chain. -/
def invokeChain (I : InvokeFn) : Nat → Expr → St → EvalRes
  | 0, r, s => .ok (r, s)
  | k + 1, .TailCall p args context, s =>
    (match I p args context s with
     | .error err => .error err
     | .ok (r, s') => invokeChain I k r s')
  | _ + 1, v, s => .ok (v, s)

mutual
/-- Absence of the `TailCall` variant anywhere inside an expression: the
shape of every expression the parser can produce. -/
def Expr.noTC : Expr → Bool
  | .TailCall _ _ _ => false
  | .List l _ => SList.noTC l
  | _ => true

/-- Absence of the `TailCall` variant anywhere inside a list. -/
def SList.noTC : SList → Bool
  | .Nil => true
  | .Cons car cdr => Expr.noTC car && SList.noTC cdr
end

/-- Invoke oracle that ignores its procedure and returns `NIL`. -/
def invokeNil : InvokeFn := fun _ _ _ s => .ok (NIL, s)

/-- Quasiquote oracle that returns `NIL`. -/
def quasiquoteNil : QuasiquoteFn := fun _ _ s => .ok (NIL, s)

/-- A value stored in an environment as the garbage collector sees it.
Modelled from the spec (section 4.3): the missing new-revision `env.rs`
marks, for every binding whose value is a closure (or macro), the
environment the closure captured; every other value contributes no edge. -/
inductive GVal where
  | atom
  | closure (capturedEnv : Nat)

deriving DecidableEq

/-- An environment object as the garbage collector sees it.  Modelled from
the spec (section 4.3): parent scope, bindings, and the mark bit used by
`gc_prepare` / `gc_mark` / `is_reachable`. -/
structure GEnv where
  base : Option Nat
  vars : List (String × GVal)
  reachable : Bool

deriving DecidableEq

/-- State owned by `Evaluator` (`eval.rs` lines 181-184): `envs` holds the
still-allocated environment objects keyed by identity (a weak handle
upgrades successfully exactly when its key is present), `allEnvs` is the
registry of weak handles, `root` the root environment. -/
structure GcState where
  envs : List (Nat × GEnv)
  allEnvs : List Nat
  root : Nat

deriving DecidableEq

/-- Association lookup in the live-environment table (weak-handle upgrade). -/
def lookupGEnv : List (Nat × GEnv) → Nat → Option GEnv
  | [], _ => none
  | (i, d) :: rest, e => if i = e then some d else lookupGEnv rest e

/-- Association update in the live-environment table. -/
def setGEnv : List (Nat × GEnv) → Nat → GEnv → List (Nat × GEnv)
  | [], _, _ => []
  | (i, d) :: rest, e, nd =>
    if i = e then (i, nd) :: rest else (i, d) :: setGEnv rest e nd

/-- The environments captured by closure values among some bindings. -/
def closureTargets (vars : List (String × GVal)) : List Nat :=
  vars.filterMap fun p =>
    match p.2 with
    | .closure c => some c
    | .atom => none

/-- Prepare phase of `Evaluator::collect_garbage` / `count_unreachable_envs`
(`eval.rs` lines 233-237 and 255-259): every still-allocated environment
in the registry is reset to unmarked (`gc_prepare`, modelled from the
spec, section 4.3 step 1). -/
def gcPrepare (st : GcState) : List (Nat × GEnv) :=
  st.allEnvs.foldl
    (fun envs id =>
      match lookupGEnv envs id with
      | some d => setGEnv envs id { d with reachable := false }
      | none => envs)
    st.envs

/-- Mark phase (`gc_mark`).  Modelled from the spec (section 4.3 step 2):
starting from an environment, stop if it is already marked, otherwise mark
it, recurse into its parent chain, and recurse into the captured
environment of every closure among its bindings.  Fuel bounds the
traversal depth; one more than the registry size always suffices because
every productive step marks a previously unmarked environment. -/
def gcMark : Nat → List (Nat × GEnv) → Nat → List (Nat × GEnv)
  | 0, envs, _ => envs
  | fuel + 1, envs, e =>
    match lookupGEnv envs e with
    | none => envs
    | some d =>
      if d.reachable then envs
      else
        let envs1 := setGEnv envs e { d with reachable := true }
        let envs2 :=
          match d.base with
          | some b => gcMark fuel envs1 b
          | none => envs1
        (closureTargets d.vars).foldl (fun acc c => gcMark fuel acc c) envs2

/-- Dry-run diagnostic, `eval.rs` `Evaluator::count_unreachable_envs`
(lines 232-249): prepare, mark from the root, then count the registry
entries that still upgrade but were not marked. -/
def countUnreachable (st : GcState) : Nat :=
  let marked := gcMark (st.allEnvs.length + 1) (gcPrepare st) st.root
  st.allEnvs.foldl
    (fun acc id =>
      match lookupGEnv marked id with
      | some d => if d.reachable then acc else acc + 1
      | none => acc)
    0

/-- Collector, `eval.rs` `Evaluator::collect_garbage` (lines 251-294):
prepare, mark from the root, then sweep — every registry entry that no
longer upgrades is dropped from the registry, and every still-allocated
but unmarked environment has its bindings cleared (`gc_sweep`, modelled
from the spec, section 4.3 step 3, breaking any cycle it anchors) and is
dropped from the registry as well. -/
def collectGarbage (st : GcState) : GcState :=
  let marked := gcMark (st.allEnvs.length + 1) (gcPrepare st) st.root
  let keep := st.allEnvs.filter fun id =>
    match lookupGEnv marked id with
    | some d => d.reachable
    | none => false
  let swept := st.allEnvs.foldl
    (fun envs id =>
      match lookupGEnv envs id with
      | some d => if d.reachable then envs else setGEnv envs id { d with vars := [] }
      | none => envs)
    marked
  { envs := swept, allEnvs := keep, root := st.root }

/-- The mutual-capture scenario of claim C2: the root environment (0) owns
only an atomic binding; environment A (1) stores a closure capturing
environment B (2) and vice versa, and both are children of the root; all
three are still allocated (A and B keep each other alive through the
reference cycle) but only the root is reachable. -/
def gcScenario : GcState :=
  { envs := [(0, ⟨none, [("x", GVal.atom)], true⟩),
             (1, ⟨some 0, [("f", GVal.closure 2)], true⟩),
             (2, ⟨some 0, [("g", GVal.closure 1)], true⟩)],
    allEnvs := [0, 1, 2],
    root := 0 }

end Rusp

namespace RuspOld

/-!
The repository also carries an earlier revision of the interpreter:
`src/built_in.rs` (whose quote-family natives differ from the current
`builtin/` tree) together with the `env.rs` registration table
`Env::new_root_env`.  The expression type and the evaluator of that
revision (`expr.rs`, the old `eval.rs`) are not in the source tree, so
they are modelled from the spec; `quasiquote`, `unquote` and
`unquote-splicing` are translated from `src/built_in.rs` itself.
-/

mutual
/-- Expression model of the old revision.  Modelled from the spec: the old
`expr.rs` is missing; per section 3 the variants carry no state beyond
their payloads (spans and the procedure/tail-call machinery of the current
revision play no part in the quote subsystem). -/
inductive OExpr where
  | Sym (name : String)
  | Num (value : Int)
  | Str (text : String)
  | List (list : OList)

/-- Cons-list of the old revision. -/
inductive OList where
  | Cons (car : OExpr) (cdr : OList)
  | Nil
end

deriving instance DecidableEq for OExpr

deriving instance DecidableEq for OList

/-- Environment of the old revision: a flat binding map suffices here,
since the quote-family examples never define or look up symbols. -/
abbrev OEnv := List (String × OExpr)

/-- Lean list of the elements of a cons list. -/
def toListO : OList → List OExpr
  | .Nil => []
  | .Cons car cdr => car :: toListO cdr

/-- Cons list from a Lean list of elements. -/
def ofListO : List OExpr → OList
  | [] => .Nil
  | e :: rest => .Cons e (ofListO rest)

/-- Conversion of a collected `Vec<Expr>` into one expression
(`exprs.into()` in `src/built_in.rs`).  Modelled from the spec: the
`From<Vec<Expr>>` impl lives in the missing old `expr.rs`.  The spec's
quasiquote round-trip (section 8) forces a singleton vector to yield its
sole element — `quasiquote` collects the processed template into a
one-element vector and must return the template itself, and the
unquote-splicing branch of `quasiquote` (built_in.rs lines 140-152)
splices the elements of `eval((unquote-splicing x))`, which is the
singleton collection of the evaluated list, so only the singleton-unwrap
reading produces the flattening of exactly one level that the spec
states.  A vector of any other length becomes the list of its elements. -/
def vecToExpr (v : List OExpr) : OExpr :=
  match v with
  | [e] => e
  | other => OExpr.List (ofListO other)

/-- Binding lookup of the old revision's flat environment. -/
def getVarO : OEnv → String → Option OExpr
  | [], _ => none
  | (m, w) :: rest, name => if m = name then some w else getVarO rest name

/-- Sum of a list of evaluated arguments for the `+` native; a non-number
is a type error. -/
def sumNums : List OExpr → Int → Except String OExpr
  | [], acc => .ok (OExpr.Num acc)
  | .Num n :: rest, acc => sumNums rest (acc + n)
  | _, _ => .error "not a number"

/-- The `quote` native of the old revision, `src/built_in.rs` lines
162-169: return the first operand unevaluated; no operand is an
ill-formed-syntax error (the `Display` rendering of the form into the
message is not modelled). -/
def oquote (args : OList) : Except String OExpr :=
  match args with
  | .Cons car _ => .ok car
  | .Nil => .error "Ill-formed syntax: quote"

mutual
/-- Evaluator of the old revision.  Modelled from the spec: the old
`eval.rs` is missing.  Per section 4.5 a symbol is looked up, atoms are
self-evaluating, and a non-empty list applies its head; the head symbols
of the quote family short-circuit to the natives of `src/built_in.rs`
(`quote`, `quasiquote`, `unquote`, `unquote-splicing` — the latter two are
not in the `Env::new_root_env` table, yet `quasiquote` evaluates the whole
`(unquote x)` sub-expression, so the evaluator must dispatch them); `+` is
the numeric native registered in `Env::new_root_env` (env.rs line 56) and
`list` is the prelude procedure building the list of its evaluated
arguments (sections 1 and 6).  Every call consumes fuel; exhaustion is an
error. -/
def oeval : Nat → OExpr → OEnv → Except String OExpr
  | 0, _, _ => .error "fuel exhausted"
  | fuel + 1, expr, env =>
    match expr with
    | .Sym name =>
      (match getVarO env name with
       | some v => .ok v
       | none => .error ("Undefined symbol: " ++ name))
    | .List (OList.Cons car cdr) =>
      (match car with
       | .Sym "quote" => oquote cdr
       | .Sym "quasiquote" => quasiquote fuel cdr env
       | .Sym "unquote" => unquote fuel cdr env
       | .Sym "unquote-splicing" => unquote_splicing fuel cdr env
       | .Sym "+" => addNative fuel cdr env
       | .Sym "list" => listNative fuel cdr env
       | .Sym name => .error ("Undefined symbol: " ++ name)
       | _ => .error "does not evaluate to a callable")
    | _ => .ok expr

/-- The `quasiquote` native, translated from `src/built_in.rs` lines
114-160: walk the argument list collecting expressions (`qqGo`), then
convert the collection with `exprs.into()` (`vecToExpr`). -/
def quasiquote : Nat → OList → OEnv → Except String OExpr
  | 0, _, _ => .error "fuel exhausted"
  | fuel + 1, args, env =>
    (match qqGo fuel args env with
     | .error e => .error e
     | .ok exprs => .ok (vecToExpr exprs))

/-- Loop body of `quasiquote` (`src/built_in.rs` lines 116-157), one
element per step: a non-list element is pushed as is; an empty-list
element pushes the empty list; a list element headed by `quote` is pushed
unevaluated; one headed by `unquote` pushes the evaluation of the whole
`(unquote …)` form; one headed by `unquote-splicing` evaluates the whole
form and, when the result is a non-empty list, pushes its elements one by
one (one level of flattening), otherwise pushes the result itself; any
other list element is processed by `quasiquote` recursively. -/
def qqGo : Nat → OList → OEnv → Except String (List OExpr)
  | 0, _, _ => .error "fuel exhausted"
  | _ + 1, .Nil, _ => .ok []
  | fuel + 1, .Cons expr rest, env =>
    (match
      (match expr with
       | .List (OList.Cons car cdr) =>
         (match car with
          | .Sym "quote" => .ok [expr]
          | .Sym "unquote" =>
            (match oeval fuel expr env with
             | .error e => .error e
             | .ok v => .ok [v])
          | .Sym "unquote-splicing" =>
            (match oeval fuel expr env with
             | .error e => .error e
             | .ok (.List (OList.Cons c cs)) => .ok (c :: toListO cs)
             | .ok other => .ok [other])
          | _ =>
            (match quasiquote fuel (OList.Cons car cdr) env with
             | .error e => .error e
             | .ok v => .ok [v]))
       | .List .Nil => .ok [OExpr.List OList.Nil]
       | _ => .ok [expr] : Except String (List OExpr)) with
     | .error e => .error e
     | .ok headElems =>
       (match qqGo fuel rest env with
        | .error e => .error e
        | .ok tailElems => .ok (headElems ++ tailElems)))

/-- The `unquote` native, translated from `src/built_in.rs` lines 171-177:
evaluate every argument, collect the results, convert with
`exprs.into()`. -/
def unquote : Nat → OList → OEnv → Except String OExpr
  | 0, _, _ => .error "fuel exhausted"
  | fuel + 1, args, env =>
    (match evalEach fuel args env with
     | .error e => .error e
     | .ok vs => .ok (vecToExpr vs))

/-- The `unquote-splicing` native, `src/built_in.rs` lines 179-181: it
delegates to `unquote`. -/
def unquote_splicing : Nat → OList → OEnv → Except String OExpr
  | 0, _, _ => .error "fuel exhausted"
  | fuel + 1, args, env => unquote fuel args env

/-- Evaluation of every element of an argument list in order. -/
def evalEach : Nat → OList → OEnv → Except String (List OExpr)
  | 0, _, _ => .error "fuel exhausted"
  | _ + 1, .Nil, _ => .ok []
  | fuel + 1, .Cons e rest, env =>
    (match oeval fuel e env with
     | .error err => .error err
     | .ok v =>
       (match evalEach fuel rest env with
        | .error err => .error err
        | .ok vs => .ok (v :: vs)))

/-- The `+` native.  Modelled from the spec: a leaf numeric primitive
(sections 1 and 6) evaluating its arguments and returning their sum; a
non-numeric argument is a type error. -/
def addNative : Nat → OList → OEnv → Except String OExpr
  | 0, _, _ => .error "fuel exhausted"
  | fuel + 1, args, env =>
    (match evalEach fuel args env with
     | .error e => .error e
     | .ok vs => sumNums vs 0)

/-- The `list` procedure of the prelude.  Modelled from the spec: an
ordinary library procedure (section 6) returning the list of its evaluated
arguments. -/
def listNative : Nat → OList → OEnv → Except String OExpr
  | 0, _, _ => .error "fuel exhausted"
  | fuel + 1, args, env =>
    (match evalEach fuel args env with
     | .error e => .error e
     | .ok vs => .ok (OExpr.List (ofListO vs)))
end

/-- The parsed form of `` `(1 ,(+ 1 1) 3) ``:
`(quasiquote (1 (unquote (+ 1 1)) 3))`. -/
def qqExample1 : OExpr :=
  .List (.Cons (.Sym "quasiquote") (.Cons
    (.List (.Cons (.Num 1) (.Cons
      (.List (.Cons (.Sym "unquote") (.Cons
        (.List (.Cons (.Sym "+") (.Cons (.Num 1) (.Cons (.Num 1) .Nil))))
        .Nil)))
      (.Cons (.Num 3) .Nil)))) .Nil))

/-- The parsed form of `` `(1 ,@(list 2 3) 4) ``:
`(quasiquote (1 (unquote-splicing (list 2 3)) 4))`. -/
def qqExample2 : OExpr :=
  .List (.Cons (.Sym "quasiquote") (.Cons
    (.List (.Cons (.Num 1) (.Cons
      (.List (.Cons (.Sym "unquote-splicing") (.Cons
        (.List (.Cons (.Sym "list") (.Cons (.Num 2) (.Cons (.Num 3) .Nil))))
        .Nil)))
      (.Cons (.Num 4) .Nil)))) .Nil))

end RuspOld

namespace Rusp

theorem wfHeap_base_lt {h : Heap} {i b : Nat} {d : EnvData}
    (hwf : wfHeap h = true) (hd : h.get? i = some d) (hb : d.base = some b) :
    b < i := by
  have hi : i < h.length := List.get?_eq_some.mp hd |>.1
  have := List.all_eq_true.mp hwf i (List.mem_range.mpr hi)
  simp only [hd, hb] at this
  exact of_decide_eq_true this

theorem getVar_insertVar (vars : List (String × Expr)) (name : String) (v : Expr) :
    getVar (insertVar vars name v) name = some v := by
  induction vars with
  | nil => simp [insertVar, getVar]
  | cons p rest ih =>
    by_cases hm : p.1 = name
    · simp [insertVar, hm, getVar]
    · simp [insertVar, hm, getVar, ih]

theorem lookup_define_self (h : Heap) (e : Nat) (x : String) (v : Expr)
    {d : EnvData} (hget : h.get? e = some d) :
    Env.lookup (Env.define h e x v) e x = some v := by
  have he : e < h.length := (List.get?_eq_some.mp hget).1
  unfold Env.define
  rw [hget]
  unfold Env.lookup
  rw [List.length_set]
  show lookupGo (h.length + 1) _ e x = some v
  unfold lookupGo
  rw [List.get?_set_eq_of_lt _ he]
  simp only
  rw [getVar_insertVar]

/-- Claim C7: for every environment (any bindings — so `define` may insert
or overwrite — and any parent) and every value `v`, after `define("x", v)`
on that environment `lookup("x")` returns `Some(v)`; and `update` of any
name on an empty environment (no bindings, no parent) returns `false` and
leaves the heap — in particular every binding map — unchanged.  The first
half quantifies over an arbitrary environment record `d` at handle `e`;
the only hypothesis is that the handle is valid (in Rust an `Env` value
always denotes an allocated environment). -/
theorem define_lookup_update_contract (h h₂ : Heap) (e e₂ : Nat)
    (d : EnvData) (x y : String) (v w : Expr)
    (hget : h.get? e = some d)
    (hempty : h₂.get? e₂ = some ⟨none, []⟩) :
    Env.lookup (Env.define h e x v) e x = some v ∧
    Env.update h₂ e₂ y w = (false, h₂) := by
  constructor
  · exact lookup_define_self h e x v hget
  · unfold Env.update
    show updateGo (h₂.length + 1) h₂ e₂ y w = (false, h₂)
    unfold updateGo
    rw [hempty]
    simp [containsVar]

/-- Witness for the C7 theorem at concrete heaps: the environment receiving
the `define` has a parent (index 0) and already binds `x` (so the insert
overwrites); the environment receiving the `update` is empty and
parentless. -/
theorem define_lookup_update_contract_witness :
    (([⟨none, []⟩, ⟨some 0, [("x", Expr.Num 9 none)]⟩] : Heap).get? 1 =
        some ⟨some 0, [("x", Expr.Num 9 none)]⟩ ∧
      ([⟨none, []⟩] : Heap).get? 0 = some ⟨none, []⟩) ∧
    (Env.lookup
        (Env.define [⟨none, []⟩, ⟨some 0, [("x", Expr.Num 9 none)]⟩] 1 "x"
          (Expr.Num 1 none)) 1 "x" = some (Expr.Num 1 none) ∧
      Env.update [⟨none, []⟩] 0 "y" (Expr.Num 2 none) = (false, [⟨none, []⟩])) :=
  ⟨⟨by decide, by decide⟩,
    define_lookup_update_contract
      [⟨none, []⟩, ⟨some 0, [("x", Expr.Num 9 none)]⟩] [⟨none, []⟩] 1 0
      ⟨some 0, [("x", Expr.Num 9 none)]⟩ "x" "y"
      (Expr.Num 1 none) (Expr.Num 2 none) (by decide) (by decide)⟩

theorem lookupGo_append (h ext : Heap) (x : String) (hwf : wfHeap h = true) :
    ∀ fuel e, e < h.length →
      lookupGo fuel (h ++ ext) e x = lookupGo fuel h e x := by
  intro fuel
  induction fuel with
  | zero => intro e _; rfl
  | succ f ih =>
    intro e he
    unfold lookupGo
    rw [List.get?_append he]
    match hd : h.get? e with
    | none => rfl
    | some d =>
      simp only
      match getVar d.vars x with
      | some v => rfl
      | none =>
        simp only
        match hb : d.base with
        | none => rfl
        | some b =>
          simp only
          exact ih b (Nat.lt_trans (wfHeap_base_lt hwf hd hb) he)

theorem lookupGo_fuel (h : Heap) (x : String) (hwf : wfHeap h = true) :
    ∀ e, e < h.length → ∀ f f', e < f → e < f' →
      lookupGo f h e x = lookupGo f' h e x := by
  intro e
  induction e using Nat.strong_induction_on with
  | _ e ih =>
    intro he f f' hf hf'
    obtain ⟨fe, rfl⟩ : ∃ fe, f = fe + 1 := ⟨f - 1, by omega⟩
    obtain ⟨fe', rfl⟩ : ∃ fe', f' = fe' + 1 := ⟨f' - 1, by omega⟩
    unfold lookupGo
    match hd : h.get? e with
    | none => rfl
    | some d =>
      simp only
      match getVar d.vars x with
      | some v => rfl
      | none =>
        simp only
        match hb : d.base with
        | none => rfl
        | some b =>
          simp only
          have hbe : b < e := wfHeap_base_lt hwf hd hb
          exact ih b hbe (Nat.lt_trans hbe he) fe fe' (by omega) (by omega)

theorem set_append_last (h : Heap) (a b : EnvData) :
    (h ++ [a]).set h.length b = h ++ [b] := by
  induction h with
  | nil => rfl
  | cons hd tl ih => simpa [List.set] using ih

/-- Claim C8: with `d` derived from `p`, a name `x` unbound in `p`'s chain
stays invisible from `p` after `define` on `d`; a name `y` bound in `p`'s
chain is visible from `d`; and defining `y` in `d` shadows: lookup from
`d` then returns `d`'s own binding. -/
theorem derive_scope_isolation (h : Heap) (p : Nat) (x y : String) (v w u : Expr)
    (hwf : wfHeap h = true) (hp : p < h.length)
    (hx : Env.lookup h p x = none) (hy : Env.lookup h p y = some v) :
    Env.lookup (Env.define (Env.derive h p).1 (Env.derive h p).2 x w) p x = none ∧
    Env.lookup (Env.derive h p).1 (Env.derive h p).2 y = some v ∧
    Env.lookup (Env.define (Env.derive h p).1 (Env.derive h p).2 y u)
      (Env.derive h p).2 y = some u := by
  have hgetd : (Env.derive h p).1.get? (Env.derive h p).2 =
      some { base := some p, vars := [] } := by
    show (h ++ [_]).get? h.length = some _
    exact List.get?_concat_length h _
  refine ⟨?_, ?_, ?_⟩
  · show Env.lookup (Env.define (h ++ [_]) h.length x w) p x = none
    unfold Env.define
    rw [List.get?_concat_length h _]
    simp only
    rw [set_append_last]
    unfold Env.lookup
    rw [List.length_append, List.length_singleton]
    rw [lookupGo_append h _ x hwf _ p hp]
    rw [lookupGo_fuel h x hwf p hp (h.length + 1 + 1) (h.length + 1)
      (by omega) (by omega)]
    exact hx
  · show Env.lookup (h ++ [_]) h.length y = some v
    unfold Env.lookup
    rw [List.length_append, List.length_singleton]
    show lookupGo (h.length + 1 + 1) _ h.length y = some v
    unfold lookupGo
    rw [List.get?_concat_length h _]
    simp only [getVar]
    rw [lookupGo_append h _ y hwf _ p hp]
    exact hy
  · exact lookup_define_self _ _ y u hgetd

/-- Witness for the C8 theorem: parent at index 0 binds `y`, not `x`. -/
theorem derive_scope_isolation_witness :
    (wfHeap [⟨none, [("y", Expr.Num 5 none)]⟩] = true ∧
      0 < ([⟨none, [("y", Expr.Num 5 none)]⟩] : Heap).length ∧
      Env.lookup [⟨none, [("y", Expr.Num 5 none)]⟩] 0 "x" = none ∧
      Env.lookup [⟨none, [("y", Expr.Num 5 none)]⟩] 0 "y" =
        some (Expr.Num 5 none)) ∧
    (Env.lookup
        (Env.define (Env.derive [⟨none, [("y", Expr.Num 5 none)]⟩] 0).1
          (Env.derive [⟨none, [("y", Expr.Num 5 none)]⟩] 0).2 "x" (Expr.Num 7 none))
        0 "x" = none ∧
      Env.lookup (Env.derive [⟨none, [("y", Expr.Num 5 none)]⟩] 0).1
        (Env.derive [⟨none, [("y", Expr.Num 5 none)]⟩] 0).2 "y" =
        some (Expr.Num 5 none) ∧
      Env.lookup
        (Env.define (Env.derive [⟨none, [("y", Expr.Num 5 none)]⟩] 0).1
          (Env.derive [⟨none, [("y", Expr.Num 5 none)]⟩] 0).2 "y" (Expr.Num 9 none))
        (Env.derive [⟨none, [("y", Expr.Num 5 none)]⟩] 0).2 "y" =
        some (Expr.Num 9 none)) :=
  ⟨⟨by decide, by decide, by decide, by decide⟩,
    derive_scope_isolation [⟨none, [("y", Expr.Num 5 none)]⟩] 0 "x" "y"
      (Expr.Num 5 none) (Expr.Num 7 none) (Expr.Num 9 none)
      (by decide) (by decide) (by decide) (by decide)⟩

theorem getVar_none_containsVar (vars : List (String × Expr)) (name : String)
    (hg : getVar vars name = none) : containsVar vars name = false := by
  induction vars with
  | nil => rfl
  | cons p rest ih =>
    by_cases hm : p.1 = name
    · simp only [getVar, hm, if_pos rfl] at hg
      cases hg
    · obtain ⟨m, w⟩ := p
      simp only at hm
      simp only [getVar, if_neg hm] at hg
      simpa [containsVar, if_neg hm] using ih hg

theorem lookupGo_none_updateGo (h : Heap) (x : String) (v : Expr) :
    ∀ fuel e, lookupGo fuel h e x = none →
      updateGo fuel h e x v = (false, h) := by
  intro fuel
  induction fuel with
  | zero => intro e _; rfl
  | succ f ih =>
    intro e hl
    unfold lookupGo at hl
    unfold updateGo
    match hd : h.get? e with
    | none => rfl
    | some d =>
      rw [hd] at hl
      simp only at hl ⊢
      match hg : getVar d.vars x with
      | some w => rw [hg] at hl; cases hl
      | none =>
        rw [hg] at hl
        rw [getVar_none_containsVar d.vars x hg]
        simp only [Bool.false_eq_true, if_neg]
        match hb : d.base with
        | some b => rw [hb] at hl; simp only at hl ⊢; exact ih b hl
        | none => rfl

/-- Claim C10: calling the `set` native with exactly two arguments whose
first is a symbol unbound in every scope of the environment chain returns
`Ok(NIL)` — the `false` result of `Env::update` is discarded — and no
binding in any environment is created or modified (the heap is returned
unchanged), provided evaluating the value expression succeeds without
touching the heap. -/
theorem set_unbound_symbol_silently_succeeds
    (ev : Expr → Heap → HeapResult) (procName : String) (x : String)
    (sp : Option Span) (valueExpr v : Expr) (e : Nat) (h : Heap)
    (hev : ev valueExpr h = .ok (v, h))
    (hunbound : Env.lookup h e x = none) :
    set ev procName (SList.Cons (Expr.Sym x sp) (SList.Cons valueExpr SList.Nil))
      e h = .ok (NIL, h) := by
  unfold set getExact2Args
  simp only
  rw [hev]
  simp only
  have hupd : Env.update h e x v = (false, h) :=
    lookupGo_none_updateGo h x v (h.length + 1) e hunbound
  rw [hupd]

/-- Witness for the C10 theorem: one empty root environment, value oracle
returning the number 3. -/
theorem set_unbound_symbol_silently_succeeds_witness :
    ((fun (_ : Expr) (hh : Heap) => (.ok (Expr.Num 3 none, hh) : HeapResult))
        (Expr.Num 3 none) [⟨none, []⟩] =
        .ok (Expr.Num 3 none, [⟨none, []⟩]) ∧
      Env.lookup [⟨none, []⟩] 0 "z" = none) ∧
    set (fun _ hh => .ok (Expr.Num 3 none, hh)) "set!"
      (SList.Cons (Expr.Sym "z" none) (SList.Cons (Expr.Num 3 none) SList.Nil))
      0 [⟨none, []⟩] = .ok (NIL, [⟨none, []⟩]) :=
  ⟨⟨rfl, by decide⟩,
    set_unbound_symbol_silently_succeeds (fun _ hh => .ok (Expr.Num 3 none, hh))
      "set!" "z" none (Expr.Num 3 none) (Expr.Num 3 none) 0 [⟨none, []⟩]
      rfl (by decide)⟩

theorem lastElem_ofList_concat (mid : List Expr) (z : Expr) :
    SList.lastElem (SList.ofList (mid ++ [z])) = some z := by
  induction mid with
  | nil => rfl
  | cons a rest ih =>
    show SList.lastElem (SList.Cons a (SList.ofList (rest ++ [z]))) = some z
    cases rest with
    | nil => rfl
    | cons b tl =>
      show SList.lastElem (SList.Cons b (SList.ofList (tl ++ [z]))) = some z
      exact ih

theorem span_cons (car : Expr) (cdr : SList) :
    SList.span (SList.Cons car cdr) =
      match SList.lastElem cdr with
      | none => car.span
      | some last =>
        match car.span, last.span with
        | some firstSpan, some lastSpan => some ⟨firstSpan.begin, lastSpan.end_⟩
        | _, _ => none := rfl

/-- Counterexample to claim C9 as stated: in the three-element list whose
middle element carries no span (the repository's own `test_list_span`, case
four), `List::span` still returns the combined span of the first and last
elements, not `None`. -/
theorem span_ignores_middle_counterexample :
    (Expr.Num 2 none).span = none ∧
    SList.span
        (SList.Cons (Expr.Num 1 (some ⟨⟨1, 1⟩, ⟨1, 2⟩⟩))
          (SList.Cons (Expr.Num 2 none)
            (SList.Cons (Expr.Num 3 (some ⟨⟨1, 5⟩, ⟨1, 6⟩⟩)) SList.Nil))) =
      some ⟨⟨1, 1⟩, ⟨1, 6⟩⟩ ∧
    SList.span
        (SList.Cons (Expr.Num 1 (some ⟨⟨1, 1⟩, ⟨1, 2⟩⟩))
          (SList.Cons (Expr.Num 2 none)
            (SList.Cons (Expr.Num 3 (some ⟨⟨1, 5⟩, ⟨1, 6⟩⟩)) SList.Nil))) ≠
      none :=
  ⟨rfl, rfl, by decide⟩

/-- Claim C9 as amended: for a list of two or more elements, `span()`
combines the first element's start and the last element's end when both of
those elements carry spans and returns `None` when the first or the last
lacks one; the elements strictly in between are never consulted (the
middle list `mid` is arbitrary on both sides of the equation); a singleton
list yields its sole element's span and the empty list yields `None`. -/
theorem span_first_to_last (a z : Expr) (mid : List Expr) :
    SList.span (SList.Cons a (SList.ofList (mid ++ [z]))) =
      (match a.span, z.span with
       | some firstSpan, some lastSpan => some ⟨firstSpan.begin, lastSpan.end_⟩
       | _, _ => none) ∧
    SList.span (SList.Cons a SList.Nil) = a.span ∧
    SList.span SList.Nil = none := by
  refine ⟨?_, rfl, rfl⟩
  rw [span_cons, lastElem_ofList_concat]

theorem condGo_clause (ev : Expr → Heap → HeapResult) (procName : String)
    (fullArgs : SList) (c : Expr) (cd : SList) (sp : Option Span)
    (rest : SList) (h : Heap) :
    condGo ev procName fullArgs
        (SList.Cons (Expr.List (SList.Cons c cd) sp) rest) h =
      match ev c h with
      | .error err => .error err
      | .ok (v, h') =>
        if v.is_truthy then
          match SList.car? cd with
          | some expr => ev expr h'
          | none => .error (makeIllFormedError procName fullArgs)
        else condGo ev procName fullArgs rest h' := rfl

theorem condGo_skip_falsy (ev : Expr → Heap → HeapResult) (procName : String)
    (fullArgs : SList) (pre : List (Expr × Expr)) (rest : SList) (h : Heap)
    (hpre : ∀ p ∈ pre, ∃ w, ev p.1 h = .ok (w, h) ∧ w.is_truthy = false) :
    condGo ev procName fullArgs (appendS (pre.map toClause) rest) h =
      condGo ev procName fullArgs rest h := by
  induction pre with
  | nil => rfl
  | cons p tl ih =>
    obtain ⟨w, hw, hwf⟩ := hpre p (List.mem_cons_self p tl)
    show condGo ev procName fullArgs
      (SList.Cons (toClause p) (appendS (tl.map toClause) rest)) h = _
    rw [toClause, condGo_clause, hw]
    simp only [hwf, Bool.false_eq_true, if_false]
    exact ih fun q hq => hpre q (List.mem_cons_of_mem p hq)

/-- Claim C4: for a well-formed `(cond (c1 e1) (c2 e2) ...)` whose
conditions before the k-th all evaluate falsy without touching the heap,
(i) when `ck` evaluates truthy the result is the evaluation of `ek` (later
clauses never influence the result: `post` is arbitrary); (ii) when every
condition evaluates falsy the result is `Ok(NIL)`; (iii) a clause whose
condition evaluates truthy but which has no body expression is the
ill-formed-syntax error. -/
theorem cond_first_truthy_contract (ev : Expr → Heap → HeapResult)
    (procName : String) (h h' : Heap) (pre post : List (Expr × Expr))
    (ck ek vk : Expr)
    (hpre : ∀ p ∈ pre, ∃ w, ev p.1 h = .ok (w, h) ∧ w.is_truthy = false)
    (hk : ev ck h = .ok (vk, h')) (hvk : vk.is_truthy = true) :
    cond ev procName
        (appendS (pre.map toClause) (SList.Cons (toClause (ck, ek))
          (appendS (post.map toClause) SList.Nil))) h = ev ek h' ∧
    cond ev procName (appendS (pre.map toClause) SList.Nil) h = .ok (NIL, h) ∧
    cond ev procName
        (appendS (pre.map toClause)
          (SList.Cons (Expr.List (SList.Cons ck SList.Nil) none) SList.Nil)) h =
      .error (makeIllFormedError procName
        (appendS (pre.map toClause)
          (SList.Cons (Expr.List (SList.Cons ck SList.Nil) none) SList.Nil))) := by
  refine ⟨?_, ?_, ?_⟩
  · unfold cond
    rw [condGo_skip_falsy ev procName _ pre _ h hpre]
    rw [toClause, condGo_clause, hk]
    simp [hvk, SList.car?]
  · unfold cond
    rw [condGo_skip_falsy ev procName _ pre _ h hpre]
    rfl
  · unfold cond
    rw [condGo_skip_falsy ev procName _ pre _ h hpre]
    rw [condGo_clause, hk]
    simp [hvk, SList.car?]

/-- Witness for the C4 theorem: `(cond (() 1) (2 3))` — the first
condition is the empty list (falsy), the second the number 2 (truthy) — so
`cond` evaluates the body 3.  The oracle evaluates expressions to
themselves. -/
theorem cond_first_truthy_contract_witness :
    ((∀ p ∈ [((NIL : Expr), (Expr.Num 1 none))],
        ∃ w, (fun (x : Expr) (hh : Heap) => (.ok (x, hh) : HeapResult)) p.1
            [] = .ok (w, []) ∧ w.is_truthy = false) ∧
      (fun (x : Expr) (hh : Heap) => (.ok (x, hh) : HeapResult))
          (Expr.Num 2 none) [] = .ok (Expr.Num 2 none, []) ∧
      (Expr.Num 2 none).is_truthy = true) ∧
    cond (fun x hh => .ok (x, hh)) "cond"
        (appendS ([((NIL : Expr), Expr.Num 1 none)].map toClause)
          (SList.Cons (toClause (Expr.Num 2 none, Expr.Num 3 none))
            (appendS (([] : List (Expr × Expr)).map toClause) SList.Nil))) [] =
      .ok (Expr.Num 3 none, []) :=
  ⟨⟨fun p hp => ⟨p.1, rfl, by
      have hpe : p = ((NIL : Expr), (Expr.Num 1 none)) := List.mem_singleton.mp hp
      rw [hpe]; decide⟩, rfl, by decide⟩,
    by
      have hmain := cond_first_truthy_contract (fun x hh => .ok (x, hh)) "cond"
        [] [] [((NIL : Expr), Expr.Num 1 none)] [] (Expr.Num 2 none)
        (Expr.Num 3 none) (Expr.Num 2 none)
        (fun p hp => ⟨p.1, rfl, by
          have hpe : p = ((NIL : Expr), (Expr.Num 1 none)) :=
            List.mem_singleton.mp hp
          rw [hpe]; decide⟩)
        rfl (by decide)
      exact hmain.1⟩

theorem evalInternal_zero_eq (I : InvokeFn) (Q : QuasiquoteFn)
    (isTail : Bool) (expr : Expr) (context : EvalContext) (s : St) :
    evalInternal I Q 0 isTail expr context s =
      .error ⟨"evaluation fuel exhausted", none⟩ := rfl

theorem evalInternal_sym_eq (I : InvokeFn) (Q : QuasiquoteFn) (fuel : Nat)
    (isTail : Bool) (name : String) (sp : Option Span)
    (context : EvalContext) (s : St) :
    evalInternal I Q (fuel + 1) isTail (.Sym name sp) context s =
      (match Env.lookup s.heap context.env name with
       | some v => .ok (v, s)
       | none => .error ⟨"Undefined symbol: `" ++ name ++ "`", sp⟩) := rfl

theorem evalInternal_list_eq (I : InvokeFn) (Q : QuasiquoteFn) (fuel : Nat)
    (isTail : Bool) (car : Expr) (cdr : SList) (sp : Option Span)
    (context : EvalContext) (s : St) :
    evalInternal I Q (fuel + 1) isTail (.List (.Cons car cdr) sp) context s =
      (match evalListDispatch I Q fuel isTail car cdr context s with
       | .error ⟨message, none⟩ =>
         .error ⟨message, (SList.span cdr).orElse fun _ => sp⟩
       | r => r) := rfl

theorem evalInternal_self_eq (I : InvokeFn) (Q : QuasiquoteFn) (fuel : Nat)
    (isTail : Bool) (expr : Expr) (context : EvalContext) (s : St)
    (hself : (match expr with
              | .Sym _ _ => false
              | .List (SList.Cons _ _) _ => false
              | _ => true) = true) :
    evalInternal I Q (fuel + 1) isTail expr context s = .ok (expr, s) := by
  cases expr with
  | Sym name sp => cases hself
  | List l sp =>
    cases l with
    | Cons car cdr => cases hself
    | Nil => rfl
  | Num n sp => rfl
  | Str t sp => rfl
  | Proc p sp => rfl
  | TailCall p a c => rfl

theorem trampoline_not_tailcall (I : InvokeFn) (fuel : Nat) (v : Expr)
    (s : St) (hv : v.isTailCall = false) :
    trampoline I fuel v s = .ok (v, s) := by
  cases v <;> simp_all [trampoline, Expr.isTailCall]

theorem trampoline_tailcall_step (I : InvokeFn) (f : Nat) (p : Nat)
    (a : SList) (c : EvalContext) (s : St) :
    trampoline I (f + 1) (.TailCall p a c) s =
      (match I p a c s with
       | .error err => .error err
       | .ok (r, s') => trampoline I f r s') := by
  rw [trampoline]

theorem trampoline_ok_not_tailcall (I : InvokeFn) :
    ∀ fuel r s v s', trampoline I fuel r s = .ok (v, s') →
      v.isTailCall = false := by
  intro fuel
  induction fuel with
  | zero =>
    intro r s v s' h
    cases r <;> simp [trampoline] at h <;>
      · obtain ⟨h1, _⟩ := h
        subst h1
        rfl
  | succ f ih =>
    intro r s v s' h
    cases r with
    | TailCall p a c =>
      rw [trampoline_tailcall_step] at h
      match hI : I p a c s with
      | .error err => rw [hI] at h; cases h
      | .ok (r', s₂) =>
        rw [hI] at h
        exact ih r' s₂ v s' h
    | Sym n sp => simp [trampoline] at h; obtain ⟨h1, _⟩ := h; subst h1; rfl
    | Num n sp => simp [trampoline] at h; obtain ⟨h1, _⟩ := h; subst h1; rfl
    | Str t sp => simp [trampoline] at h; obtain ⟨h1, _⟩ := h; subst h1; rfl
    | List l sp => simp [trampoline] at h; obtain ⟨h1, _⟩ := h; subst h1; rfl
    | Proc p sp => simp [trampoline] at h; obtain ⟨h1, _⟩ := h; subst h1; rfl

theorem trampoline_first_non_tailcall (I : InvokeFn) :
    ∀ k fuel r s v s', k ≤ fuel → invokeChain I k r s = .ok (v, s') →
      v.isTailCall = false → trampoline I fuel r s = .ok (v, s') := by
  intro k
  induction k with
  | zero =>
    intro fuel r s v s' _ hc hv
    simp only [invokeChain] at hc
    obtain ⟨h1, h2⟩ : r = v ∧ s = s' := by
      cases hc
      exact ⟨rfl, rfl⟩
    subst h1
    subst h2
    exact trampoline_not_tailcall I fuel r s hv
  | succ k ih =>
    intro fuel r s v s' hk hc hv
    cases r with
    | TailCall p a c =>
      obtain ⟨f, rfl⟩ : ∃ f, fuel = f + 1 := ⟨fuel - 1, by omega⟩
      rw [trampoline_tailcall_step]
      simp only [invokeChain] at hc
      match hI : I p a c s with
      | .error err => rw [hI] at hc; cases hc
      | .ok (r', s₂) =>
        rw [hI] at hc
        simp only at hc
        exact ih f r' s₂ v s' (by omega) hc hv
    | Sym n sp =>
      simp only [invokeChain] at hc
      cases hc
      exact trampoline_not_tailcall I fuel _ s hv
    | Num n sp =>
      simp only [invokeChain] at hc
      cases hc
      exact trampoline_not_tailcall I fuel _ s hv
    | Str t sp =>
      simp only [invokeChain] at hc
      cases hc
      exact trampoline_not_tailcall I fuel _ s hv
    | List l sp =>
      simp only [invokeChain] at hc
      cases hc
      exact trampoline_not_tailcall I fuel _ s hv
    | Proc p sp =>
      simp only [invokeChain] at hc
      cases hc
      exact trampoline_not_tailcall I fuel _ s hv

theorem evalSExpr_head_proc (I : InvokeFn) (Q : QuasiquoteFn) (fuel : Nat)
    (isTail : Bool) (car : Expr) (args : SList) (context : EvalContext)
    (s s' : St) (p : Nat) (psp : Option Span)
    (hhead : evalInternal I Q fuel false car context s = .ok (.Proc p psp, s')) :
    evalSExpr I Q fuel isTail car args context s =
      if isTail && s'.is_in_proc then .ok (.TailCall p args context, s')
      else
        (match I p args context s' with
         | .error err => .error err
         | .ok (r, s'') => trampoline I fuel r s'') := by
  unfold evalSExpr
  rw [hhead]

/-- Claim C1: when the head of an application evaluates to a procedure,
(i) a tail-position call site with call-depth greater than zero does not
invoke and instead returns the inert `TailCall{proc, args, context}`
marker, with the evaluator state exactly as the head evaluation left it;
(ii) a non-tail call site performs the initial invoke and hands the result
to the trampoline loop; (iii) the trampoline loop returns the first
non-`TailCall` value of the re-invocation chain that starts from its
input. -/
theorem tail_call_trampoline_contract (I : InvokeFn) (Q : QuasiquoteFn)
    (fuel : Nat) (car : Expr) (args : SList) (context : EvalContext)
    (s s' : St) (p : Nat) (psp : Option Span)
    (hhead : evalInternal I Q fuel false car context s = .ok (.Proc p psp, s')) :
    (s'.is_in_proc = true →
      evalSExpr I Q fuel true car args context s =
        .ok (.TailCall p args context, s')) ∧
    evalSExpr I Q fuel false car args context s =
      (match I p args context s' with
       | .error err => .error err
       | .ok (r, s'') => trampoline I fuel r s'') ∧
    (∀ k r₀ s₀ v s₂, k ≤ fuel → invokeChain I k r₀ s₀ = .ok (v, s₂) →
      v.isTailCall = false → trampoline I fuel r₀ s₀ = .ok (v, s₂)) := by
  refine ⟨?_, ?_, ?_⟩
  · intro hin
    rw [evalSExpr_head_proc I Q fuel true car args context s s' p psp hhead]
    simp [hin]
  · rw [evalSExpr_head_proc I Q fuel false car args context s s' p psp hhead]
    simp
  · intro k r₀ s₀ v s₂ hk hc hv
    exact trampoline_first_non_tailcall I k fuel r₀ s₀ v s₂ hk hc hv

/-- Witness for the C1 theorem: the head symbol `f` is bound to procedure
handle 7 and the call depth is 1, so the tail-position call site returns
the `TailCall` marker and the non-tail call site invokes and trampolines. -/
theorem tail_call_trampoline_contract_witness :
    (evalInternal invokeNil quasiquoteNil 1 false (Expr.Sym "f" none) ⟨0⟩
        ⟨[⟨none, [("f", Expr.Proc 7 none)]⟩], 1⟩ =
      .ok (Expr.Proc 7 none, ⟨[⟨none, [("f", Expr.Proc 7 none)]⟩], 1⟩)) ∧
    ((St.is_in_proc ⟨[⟨none, [("f", Expr.Proc 7 none)]⟩], 1⟩ = true →
        evalSExpr invokeNil quasiquoteNil 1 true (Expr.Sym "f" none) SList.Nil ⟨0⟩
          ⟨[⟨none, [("f", Expr.Proc 7 none)]⟩], 1⟩ =
          .ok (Expr.TailCall 7 SList.Nil ⟨0⟩,
            ⟨[⟨none, [("f", Expr.Proc 7 none)]⟩], 1⟩)) ∧
      evalSExpr invokeNil quasiquoteNil 1 false (Expr.Sym "f" none) SList.Nil ⟨0⟩
          ⟨[⟨none, [("f", Expr.Proc 7 none)]⟩], 1⟩ =
        (match invokeNil 7 SList.Nil ⟨0⟩
            ⟨[⟨none, [("f", Expr.Proc 7 none)]⟩], 1⟩ with
         | .error err => .error err
         | .ok (r, s'') => trampoline invokeNil 1 r s'') ∧
      (∀ k r₀ s₀ v s₂, k ≤ 1 → invokeChain invokeNil k r₀ s₀ = .ok (v, s₂) →
        v.isTailCall = false → trampoline invokeNil 1 r₀ s₀ = .ok (v, s₂))) :=
  ⟨by simp [evalInternal, Env.lookup, lookupGo, getVar],
    tail_call_trampoline_contract invokeNil quasiquoteNil 1 (Expr.Sym "f" none)
      SList.Nil ⟨0⟩ ⟨[⟨none, [("f", Expr.Proc 7 none)]⟩], 1⟩
      ⟨[⟨none, [("f", Expr.Proc 7 none)]⟩], 1⟩ 7 none
      (by simp [evalInternal, Env.lookup, lookupGo, getVar])⟩

/-- Counterexample to claim C5 as stated: `eval` applied to an expression
that is itself a `TailCall` marker returns that marker unchanged through
the self-evaluating catch-all arm of `eval_internal`, so the value
returned by the top-level entry point is a `TailCall` variant. -/
theorem eval_returns_tailcall_counterexample :
    eval invokeNil quasiquoteNil 1 (Expr.TailCall 0 SList.Nil ⟨0⟩) ⟨0⟩
        ⟨[⟨none, []⟩], 0⟩ =
      .ok (Expr.TailCall 0 SList.Nil ⟨0⟩, ⟨[⟨none, []⟩], 0⟩) ∧
    (Expr.TailCall 0 SList.Nil ⟨0⟩).isTailCall = true :=
  ⟨by simp [eval, evalInternal], rfl⟩

theorem Expr.noTC_not_rooted (e : Expr) (h : Expr.noTC e = true) :
    e.isTailCall = false := by
  cases e <;> simp_all [Expr.noTC, Expr.isTailCall]

theorem evalSExpr_false_ok_not_tailcall (I : InvokeFn) (Q : QuasiquoteFn) :
    ∀ fuel car cdr context s v s',
      evalSExpr I Q fuel false car cdr context s = .ok (v, s') →
      v.isTailCall = false := by
  intro fuel car cdr context s v s' h
  unfold evalSExpr at h
  split at h
  · cases h
  · simp only [Bool.false_and, Bool.false_eq_true, if_false] at h
    split at h
    · cases h
    · exact trampoline_ok_not_tailcall I fuel _ _ v s' h
  · cases h

theorem evalListDispatch_false_ok_not_tailcall (I : InvokeFn)
    (Q : QuasiquoteFn) (fuel : Nat) (car : Expr) (cdr : SList)
    (context : EvalContext) (s : St) (v : Expr) (s' : St)
    (hcdr : SList.noTC cdr = true)
    (hq : ∀ args c st w st', Q args c st = .ok (w, st') → w.isTailCall = false)
    (h : evalListDispatch I Q fuel false car cdr context s = .ok (v, s')) :
    v.isTailCall = false := by
  unfold evalListDispatch at h
  split at h
  · cases cdr with
    | Nil => simp [quote, makeIllFormedError] at h
    | Cons car' rest =>
      simp only [quote] at h
      obtain ⟨h1, _⟩ : car' = v ∧ s = s' := by cases h; exact ⟨rfl, rfl⟩
      subst h1
      have hcar : Expr.noTC car' = true := by
        simp [SList.noTC, Bool.and_eq_true] at hcdr
        exact hcdr.1
      exact Expr.noTC_not_rooted car' hcar
  · exact hq _ _ _ _ _ h
  · exact evalSExpr_false_ok_not_tailcall I Q fuel car cdr context s v s' h

/-- Claim C5 as amended: for every input expression that contains no
`TailCall` marker, provided environment lookups never surface a stored
`TailCall` and the quasiquote subsystem never returns one, the value
returned by the top-level `eval` entry point is never a `TailCall`
variant: the marker is consumed inside the trampoline loop.  (The
unrestricted claim fails because `eval` applied to a `TailCall` expression
returns it unchanged; see the counterexample.) -/
theorem eval_no_tailcall_amended (I : InvokeFn) (Q : QuasiquoteFn)
    (fuel : Nat) (expr : Expr) (context : EvalContext) (s : St)
    (hexpr : Expr.noTC expr = true)
    (hlookup : ∀ name v, Env.lookup s.heap context.env name = some v →
      v.isTailCall = false)
    (hq : ∀ args c st w st', Q args c st = .ok (w, st') →
      w.isTailCall = false) :
    ∀ v s', eval I Q fuel expr context s = .ok (v, s') →
      v.isTailCall = false := by
  intro v s' h
  unfold eval at h
  match fuel with
  | 0 => rw [evalInternal_zero_eq] at h; cases h
  | f + 1 =>
    cases expr with
    | Sym name sp =>
      rw [evalInternal_sym_eq] at h
      split at h
      next w hw =>
        obtain ⟨h1, _⟩ : w = v ∧ s = s' := by cases h; exact ⟨rfl, rfl⟩
        subst h1
        exact hlookup name w hw
      next => cases h
    | List l sp =>
      cases l with
      | Nil =>
        rw [evalInternal_self_eq I Q f false (Expr.List SList.Nil sp)
          context s rfl] at h
        obtain ⟨h1, _⟩ : Expr.List SList.Nil sp = v ∧ s = s' := by
          cases h; exact ⟨rfl, rfl⟩
        subst h1
        rfl
      | Cons car cdr =>
        rw [evalInternal_list_eq] at h
        split at h
        · cases h
        next r hr =>
          have hcdr : SList.noTC cdr = true := by
            simp [Expr.noTC, SList.noTC, Bool.and_eq_true] at hexpr
            exact hexpr.2
          exact evalListDispatch_false_ok_not_tailcall I Q f car cdr context
            s v s' hcdr hq h
    | Num n sp =>
      rw [evalInternal_self_eq I Q f false (Expr.Num n sp) context s rfl] at h
      obtain ⟨h1, _⟩ : Expr.Num n sp = v ∧ s = s' := by cases h; exact ⟨rfl, rfl⟩
      subst h1
      rfl
    | Str t sp =>
      rw [evalInternal_self_eq I Q f false (Expr.Str t sp) context s rfl] at h
      obtain ⟨h1, _⟩ : Expr.Str t sp = v ∧ s = s' := by cases h; exact ⟨rfl, rfl⟩
      subst h1
      rfl
    | Proc p sp =>
      rw [evalInternal_self_eq I Q f false (Expr.Proc p sp) context s rfl] at h
      obtain ⟨h1, _⟩ : Expr.Proc p sp = v ∧ s = s' := by cases h; exact ⟨rfl, rfl⟩
      subst h1
      rfl
    | TailCall p a c => exact absurd hexpr (by simp [Expr.noTC])

/-- Witness for the amended C5 theorem: evaluating the number 4 in an
empty root environment. -/
theorem eval_no_tailcall_amended_witness :
    (Expr.noTC (Expr.Num 4 none) = true) ∧
    (∀ v s', eval invokeNil quasiquoteNil 1 (Expr.Num 4 none) ⟨0⟩
        ⟨[⟨none, []⟩], 0⟩ = .ok (v, s') → v.isTailCall = false) :=
  ⟨rfl,
    eval_no_tailcall_amended invokeNil quasiquoteNil 1 (Expr.Num 4 none) ⟨0⟩
      ⟨[⟨none, []⟩], 0⟩ rfl
      (fun name v hv => absurd hv (by simp [Env.lookup, lookupGo, getVar]))
      (fun args c st w st' hw => by cases hw; rfl)⟩

/-- Claim C6: when the dispatch on a non-empty list expression produces an
error, an error without a span is re-raised with the same message and the
span of the argument list (the cdr) when available, otherwise the span of
the whole expression; an error that already carries a span is propagated
unchanged. -/
theorem error_span_backfill (I : InvokeFn) (Q : QuasiquoteFn) (fuel : Nat)
    (isTail : Bool) (car : Expr) (cdr : SList) (sp : Option Span)
    (context : EvalContext) (s : St) (msg : String) (spOpt : Option Span)
    (hdisp : evalListDispatch I Q fuel isTail car cdr context s =
      .error ⟨msg, spOpt⟩) :
    evalInternal I Q (fuel + 1) isTail (.List (.Cons car cdr) sp) context s =
      .error ⟨msg,
        (match spOpt with
         | none => (SList.span cdr).orElse fun _ => sp
         | some sp' => some sp')⟩ := by
  rw [evalInternal_list_eq]
  cases spOpt with
  | none => simp only [hdisp]
  | some sp' => simp only [hdisp]

/-- Witness for the C6 theorem: applying the non-callable number 1 yields
a not-callable error with no span (the head carries none), and the
evaluator re-raises it with the span of the whole expression because the
empty argument list has no span either. -/
theorem error_span_backfill_witness :
    (evalListDispatch invokeNil quasiquoteNil 2 false (Expr.Num 1 none)
        SList.Nil ⟨0⟩ ⟨[⟨none, []⟩], 0⟩ =
      .error ⟨"does not evaluate to a callable.", none⟩) ∧
    evalInternal invokeNil quasiquoteNil 3 false
        (.List (.Cons (Expr.Num 1 none) SList.Nil) (some ⟨⟨1, 0⟩, ⟨1, 9⟩⟩)) ⟨0⟩
        ⟨[⟨none, []⟩], 0⟩ =
      .error ⟨"does not evaluate to a callable.",
        (match (none : Option Span) with
         | none => (SList.span SList.Nil).orElse fun _ => some ⟨⟨1, 0⟩, ⟨1, 9⟩⟩
         | some sp' => some sp')⟩ :=
  ⟨by simp [evalListDispatch, evalSExpr, evalInternal, Expr.span],
    error_span_backfill invokeNil quasiquoteNil 2 false (Expr.Num 1 none)
      SList.Nil (some ⟨⟨1, 0⟩, ⟨1, 9⟩⟩) ⟨0⟩ ⟨[⟨none, []⟩], 0⟩
      "does not evaluate to a callable." none
      (by simp [evalListDispatch, evalSExpr, evalInternal, Expr.span])⟩

/-- Claim C2: in the mutual-capture scenario both cyclically linked
environments are unreachable (the dry run counts 2); after
`collect_garbage()` their registry entries are removed (only the root
remains registered), their bindings are cleared, and `count_unreachable()`
returns 0. -/
theorem gc_mutual_capture_reclaimed :
    countUnreachable gcScenario = 2 ∧
    (collectGarbage gcScenario).allEnvs = [0] ∧
    lookupGEnv (collectGarbage gcScenario).envs 1 = some ⟨some 0, [], false⟩ ∧
    lookupGEnv (collectGarbage gcScenario).envs 2 = some ⟨some 0, [], false⟩ ∧
    countUnreachable (collectGarbage gcScenario) = 0 := by
  decide

end Rusp

namespace RuspOld

/-- Claim C3: evaluating `` `(1 ,(+ 1 1) 3) `` yields `(1 2 3)` — the
unquote position is replaced by the evaluated operand — and evaluating
`` `(1 ,@(list 2 3) 4) `` yields `(1 2 3 4)` — the unquote-splicing
position is replaced by the elements of the evaluated list, flattened
exactly one level into the surrounding list. -/
theorem quasiquote_unquote_roundtrip :
    oeval 32 qqExample1 [] =
      .ok (.List (.Cons (.Num 1) (.Cons (.Num 2) (.Cons (.Num 3) .Nil)))) ∧
    oeval 32 qqExample2 [] =
      .ok (.List (.Cons (.Num 1) (.Cons (.Num 2)
        (.Cons (.Num 3) (.Cons (.Num 4) .Nil))))) := by
  constructor <;>
    simp [qqExample1, qqExample2, oeval, quasiquote, qqGo, unquote,
      unquote_splicing, evalEach, addNative, listNative, oquote, vecToExpr,
      sumNums, getVarO, toListO, ofListO]

end RuspOld
